import Mathlib

/-!
Verification of the World Bank dashboard data pipeline.

This development gives a shallow embedding, over `List`-based tables with
`Option ℚ` cells (where `none` models a pandas `NaN`/null cell), of the data
cleaning, feature engineering and forecasting functions of the repository:
`standardize_country_codes`/`get_iso3_code` and `handle_missing_data`
(src/data_loader.py), `compute_ranks`, `create_latest_year_snapshot`,
`compute_world_aggregates` and `calculate_year_over_year_changes`
(src/features.py), and `prepare_forecast_data`, `linear_regression_forecast`
and `exponential_smoothing_forecast` (src/forecast.py).

Modelling conventions:
* pandas float columns are `Option ℚ` (`none` = NaN); real arithmetic is
  modelled exactly over `ℚ`.
* `sort_values` / `sort_index` are modelled as a stable sort
  (`List.insertionSort`) on the sort key.
* `groupby(...).transform` is modelled by sorting first (as the code does)
  and then processing contiguous runs of equal keys.
* the `pycountry` registry and the statsmodels Holt-Winters fitter are
  external libraries, modelled as explicit parameters.
-/

namespace WorldBank

/-- One record of the cleaned long table (`IndicatorRecord` of the spec):
country name, ISO3 code (nullable), year, and the four indicator columns,
each nullable (`none` models a pandas NaN cell). -/
structure Row where
  country : String
  iso_code : Option String
  year : Int
  ann_income_pc_growth_pct : Option ℚ
  gdp_pc_usd : Option ℚ
  life_expectancy_years : Option ℚ
  population_total : Option ℚ
  deriving DecidableEq, Inhabited

/-! ### Country-code standardization (src/data_loader.py, get_iso3_code) -/

/-- The `pycountry` registry, abstracted: `isAlpha3 c` models
`pycountry.countries.get(alpha_3=c)` finding a country; `byName n` models
`pycountry.countries.get(name=n)` returning that country (we keep its
`alpha_3`); `searchFuzzy n` models `pycountry.countries.search_fuzzy(n)`,
where `none` models the `LookupError` it raises on no match and
`some cs` the returned candidate list (alpha-3 codes, best first). -/
structure ISORegistry where
  isAlpha3 : String → Bool
  byName : String → Option String
  searchFuzzy : String → Option (List String)

/-- The `special_mapping` dict of `standardize_country_codes`. -/
def special_mapping (country_name : String) : Option String :=
  if country_name = "European Union" then some "EUU"
  else if country_name = "Korea, Rep." then some "KOR"
  else none

/-- Translation of `get_iso3_code(country_name, current_code)`
(src/data_loader.py lines 29-60).  `current_code = none` models a missing
(`None`) code, which is falsy in the `if current_code and len(...) == 3`
test.  Each `try` block that only guards library lookups is reflected in the
`Option`-valued registry operations. -/
def get_iso3_code (reg : ISORegistry) (country_name : String)
    (current_code : Option String) : Option String :=
  -- First check special cases
  match special_mapping country_name with
  | some code => some code
  | none =>
    -- Try to find by current code first
    match current_code with
    | some c =>
      if c.length = 3 && reg.isAlpha3 c then
        some c
      else
        -- Try to find by name
        match reg.byName country_name with
        | some a3 => some a3
        | none =>
          -- Try fuzzy matching by name
          match reg.searchFuzzy country_name with
          | some (a3 :: _) => some a3
          | _ =>
            -- If all else fails, return the original code
            if c.length = 3 then some c else none
    | none =>
      match reg.byName country_name with
      | some a3 => some a3
      | none =>
        match reg.searchFuzzy country_name with
        | some (a3 :: _) => some a3
        | _ => none

/-- The resolution described by the (amended) specification sentence, stated
independently of the control flow of the source: apply the override table;
otherwise keep an existing recognized 3-letter code; otherwise use the exact
name lookup; otherwise the fuzzy top candidate; otherwise fall back to the
original code exactly when it is 3 characters long, and null when it is not. -/
def iso3_resolution_spec (reg : ISORegistry) (country_name : String)
    (current_code : Option String) : Option String :=
  if (special_mapping country_name).isSome then
    special_mapping country_name
  else if current_code.any (fun c => c.length = 3 && reg.isAlpha3 c) then
    current_code
  else if (reg.byName country_name).isSome then
    reg.byName country_name
  else if ((reg.searchFuzzy country_name).getD []) ≠ [] then
    ((reg.searchFuzzy country_name).getD []).head?
  else if current_code.any (fun c => c.length = 3) then
    current_code
  else
    none

/-- A registry on which every lookup fails, as happens for a name unknown to
`pycountry` (exact lookup returns nothing, `search_fuzzy` raises). -/
def emptyRegistry : ISORegistry :=
  { isAlpha3 := fun _ => false
    byName := fun _ => none
    searchFuzzy := fun _ => none }

/-- C1, counterexample.  For the record ("Atlantis", "XYZ") against a registry
on which every lookup fails, every resolution step fails — "Atlantis" is not in
the override table, "XYZ" is not a recognized ISO3 code, the exact name lookup
finds nothing and the fuzzy search raises — yet `get_iso3_code` returns the
original code "XYZ", not null, contradicting the claim that the result is null
whenever no step succeeds. -/
theorem get_iso3_code_fallback_not_null :
    get_iso3_code emptyRegistry "Atlantis" (some "XYZ") = some "XYZ" ∧
    special_mapping "Atlantis" = none ∧
    emptyRegistry.isAlpha3 "XYZ" = false ∧
    emptyRegistry.byName "Atlantis" = none ∧
    emptyRegistry.searchFuzzy "Atlantis" = none ∧
    get_iso3_code emptyRegistry "Atlantis" (some "XYZ") ≠ none := by
  refine ⟨by decide, by decide, rfl, rfl, rfl, by decide⟩

/-- C1, amended.  For every registry and record, `get_iso3_code` resolves the
ISO code by exactly the claimed precedence — override table, then an existing
recognized 3-letter code, then exact name lookup, then the top fuzzy
candidate — but when none of these steps succeeds the result is the original
code whenever that code is 3 characters long, and null only otherwise. -/
theorem get_iso3_code_eq_resolution_spec (reg : ISORegistry)
    (country_name : String) (current_code : Option String) :
    get_iso3_code reg country_name current_code =
      iso3_resolution_spec reg country_name current_code := by
  unfold get_iso3_code iso3_resolution_spec
  rcases hsp : special_mapping country_name with _ | v
  · rcases current_code with _ | c
    · rcases hbn : reg.byName country_name with _ | a3
      · rcases hfz : reg.searchFuzzy country_name with _ | fs
        · simp
        · rcases fs with _ | ⟨f, fs⟩ <;> simp
      · simp
    · rcases hrec : (c.length = 3 && reg.isAlpha3 c : Bool) with _ | _
      · rcases hbn : reg.byName country_name with _ | a3
        · rcases hfz : reg.searchFuzzy country_name with _ | fs
          · simp [hrec]
          · rcases fs with _ | ⟨f, fs⟩ <;> simp [hrec]
        · simp [hrec]
      · simp [hrec]
  · simp

/-! ### Sorting by (country, year) (src/data_loader.py, handle_missing_data)

`df.sort_values(['country', 'year'])` is modelled as a stable sort of the
record list by the lexicographic (country, year) key. -/

/-- The (country, year) sort key of a record. -/
def rowKey (r : Row) : String × Int := (r.country, r.year)

/-- Lexicographic order on (country, year) keys, as used by
`sort_values(['country', 'year'])`. -/
def keyLE (a b : String × Int) : Prop := a.1 < b.1 ∨ (a.1 = b.1 ∧ a.2 ≤ b.2)

instance : DecidableRel keyLE := fun a b => by
  unfold keyLE; infer_instance

/-- Record order induced by the (country, year) key. -/
def rowLE (a b : Row) : Prop := keyLE (rowKey a) (rowKey b)

instance : DecidableRel rowLE := fun a b => by
  unfold rowLE; infer_instance

instance : IsTotal Row rowLE := by
  constructor
  intro a b
  rcases lt_trichotomy a.country b.country with h | h | h
  · exact Or.inl (Or.inl h)
  · rcases le_total a.year b.year with hy | hy
    · exact Or.inl (Or.inr ⟨h, hy⟩)
    · exact Or.inr (Or.inr ⟨h.symm, hy⟩)
  · exact Or.inr (Or.inl h)

instance : IsTrans Row rowLE := by
  constructor
  intro a b c hab hbc
  rcases hab with h1 | ⟨h1, h1y⟩ <;> rcases hbc with h2 | ⟨h2, h2y⟩
  · exact Or.inl (lt_trans h1 h2)
  · exact Or.inl (h2 ▸ h1)
  · exact Or.inl (h1 ▸ h2)
  · exact Or.inr ⟨h1.trans h2, le_trans h1y h2y⟩

/-- The (stable) sort by (country, year) applied by `handle_missing_data`. -/
def sortRows (rows : List Row) : List Row := List.insertionSort rowLE rows

theorem pairwise_rowLE_of_map_rowKey_eq {l l' : List Row}
    (hk : l'.map rowKey = l.map rowKey) (h : l.Pairwise rowLE) :
    l'.Pairwise rowLE := by
  have h1 : (l.map rowKey).Pairwise keyLE := List.pairwise_map.mpr h
  rw [← hk, List.pairwise_map] at h1
  exact h1

/-! ### Per-column gap filling

pandas primitives used by `handle_missing_data`, modelled positionally on a
column (a list of nullable cells):
* `ffill_bfill` models `x.ffill().bfill()`: a null cell takes the closest
  earlier non-null value, and a cell with no earlier non-null value takes the
  closest later non-null value.
* `interpolate` models `x.interpolate()` (pandas default: linear on position,
  `limit_direction='forward'`): an interior null cell between two non-null
  cells is linearly interpolated by position, a null cell after the last
  non-null cell takes that last value, and a null cell before the first
  non-null cell stays null.
* `interpolate_both` models `x.interpolate(limit_direction='both')`, which in
  addition back-fills the leading null cells from the first non-null value. -/

/-- The closest non-null cell strictly before position `i`, with its index. -/
def prevValid (xs : List (Option ℚ)) (i : Nat) : Option (Nat × ℚ) :=
  (List.range i).reverse.findSome? fun j => (xs.getD j none).map fun v => (j, v)

/-- The closest non-null cell strictly after position `i`, with its index. -/
def nextValid (xs : List (Option ℚ)) (i : Nat) : Option (Nat × ℚ) :=
  (List.range (xs.length - (i + 1))).findSome? fun t =>
    (xs.getD (i + 1 + t) none).map fun v => (i + 1 + t, v)

theorem prevValid_eq_none_iff {xs : List (Option ℚ)} {i : Nat} :
    prevValid xs i = none ↔ ∀ j, j < i → xs.getD j none = none := by
  unfold prevValid
  rw [List.findSome?_eq_none_iff]
  constructor
  · intro h j hj
    have hmem : j ∈ (List.range i).reverse := by
      simp [List.mem_reverse, List.mem_range, hj]
    have := h j hmem
    cases hx : xs.getD j none with
    | none => rfl
    | some v => rw [hx] at this; simp at this
  · intro h j hmem
    rw [List.mem_reverse, List.mem_range] at hmem
    rw [h j hmem]
    rfl

theorem nextValid_eq_none_iff {xs : List (Option ℚ)} {i : Nat} :
    nextValid xs i = none ↔ ∀ j, i < j → j < xs.length → xs.getD j none = none := by
  unfold nextValid
  rw [List.findSome?_eq_none_iff]
  constructor
  · intro h j hij hjlen
    have hmem : j - (i + 1) ∈ List.range (xs.length - (i + 1)) := by
      rw [List.mem_range]; omega
    have := h _ hmem
    have hidx : i + 1 + (j - (i + 1)) = j := by omega
    rw [hidx] at this
    cases hx : xs.getD j none with
    | none => rfl
    | some v => rw [hx] at this; simp at this
  · intro h t hmem
    rw [List.mem_range] at hmem
    rw [h (i + 1 + t) (by omega) (by omega)]
    rfl

/-- Cell `i` of `x.ffill().bfill()`. -/
def ffbAt (xs : List (Option ℚ)) (i : Nat) : Option ℚ :=
  match xs.getD i none with
  | some v => some v
  | none =>
    match prevValid xs i with
    | some jv => some jv.2
    | none => (nextValid xs i).map Prod.snd

/-- `x.ffill().bfill()` on a whole column. -/
def ffill_bfill (xs : List (Option ℚ)) : List (Option ℚ) :=
  (List.range xs.length).map fun i => ffbAt xs i

/-- Cell `i` of `x.interpolate()` (linear on position, forward direction). -/
def interpAt (xs : List (Option ℚ)) (i : Nat) : Option ℚ :=
  match xs.getD i none with
  | some v => some v
  | none =>
    match prevValid xs i, nextValid xs i with
    | some jv, some kv =>
      some (jv.2 + (kv.2 - jv.2) * ((i : ℚ) - (jv.1 : ℚ)) / ((kv.1 : ℚ) - (jv.1 : ℚ)))
    | some jv, none => some jv.2
    | none, _ => none

/-- `x.interpolate()` on a whole column. -/
def interpolate (xs : List (Option ℚ)) : List (Option ℚ) :=
  (List.range xs.length).map fun i => interpAt xs i

/-- Cell `i` of `x.interpolate(limit_direction='both')`. -/
def interpBothAt (xs : List (Option ℚ)) (i : Nat) : Option ℚ :=
  match xs.getD i none with
  | some v => some v
  | none =>
    match prevValid xs i, nextValid xs i with
    | some jv, some kv =>
      some (jv.2 + (kv.2 - jv.2) * ((i : ℚ) - (jv.1 : ℚ)) / ((kv.1 : ℚ) - (jv.1 : ℚ)))
    | some jv, none => some jv.2
    | none, some kv => some kv.2
    | none, none => none

/-- `x.interpolate(limit_direction='both')` on a whole column. -/
def interpolate_both (xs : List (Option ℚ)) : List (Option ℚ) :=
  (List.range xs.length).map fun i => interpBothAt xs i

theorem getD_map_range {α : Type} (f : Nat → α) (n i : Nat) (d : α) :
    ((List.range n).map f).getD i d = if i < n then f i else d := by
  rw [List.getD_eq_getElem?_getD, List.getElem?_map]
  by_cases h : i < n
  · rw [List.getElem?_range h]; simp [h]
  · have hnone : (List.range n)[i]? = none := by
      rw [List.getElem?_eq_none_iff, List.length_range]; omega
    rw [hnone]; simp [h]

theorem getD_of_length_le {α : Type} (xs : List α) (j : Nat) (d : α)
    (h : xs.length ≤ j) : xs.getD j d = d := by
  rw [List.getD_eq_getElem?_getD]
  have hnone : xs[j]? = none := by rw [List.getElem?_eq_none_iff]; omega
  rw [hnone]
  rfl

theorem length_ffill_bfill (xs : List (Option ℚ)) :
    (ffill_bfill xs).length = xs.length := by
  simp [ffill_bfill]

theorem getD_ffill_bfill (xs : List (Option ℚ)) (i : Nat) :
    (ffill_bfill xs).getD i none = if i < xs.length then ffbAt xs i else none :=
  getD_map_range _ _ _ _

theorem length_interpolate (xs : List (Option ℚ)) :
    (interpolate xs).length = xs.length := by
  simp [interpolate]

theorem getD_interpolate (xs : List (Option ℚ)) (i : Nat) :
    (interpolate xs).getD i none = if i < xs.length then interpAt xs i else none :=
  getD_map_range _ _ _ _

theorem ffbAt_eq_none_iff {xs : List (Option ℚ)} {i : Nat} :
    ffbAt xs i = none ↔
      xs.getD i none = none ∧ prevValid xs i = none ∧ nextValid xs i = none := by
  unfold ffbAt
  cases hx : xs.getD i none with
  | some v => simp
  | none =>
    cases hp : prevValid xs i with
    | some jv => simp
    | none =>
      cases hn : nextValid xs i with
      | some kv => simp
      | none => simp

theorem ffbAt_of_all_none {xs : List (Option ℚ)}
    (hall : ∀ j, xs.getD j none = none) (i : Nat) : ffbAt xs i = none :=
  ffbAt_eq_none_iff.mpr
    ⟨hall i, prevValid_eq_none_iff.mpr fun j _ => hall j,
      nextValid_eq_none_iff.mpr fun j _ _ => hall j⟩

theorem ffbAt_ffill_bfill (xs : List (Option ℚ)) (i : Nat) (hi : i < xs.length) :
    ffbAt (ffill_bfill xs) i = ffbAt xs i := by
  cases h : ffbAt xs i with
  | some v =>
    have hget : (ffill_bfill xs).getD i none = some v := by
      rw [getD_ffill_bfill, if_pos hi, h]
    unfold ffbAt
    rw [hget]
  | none =>
    obtain ⟨h1, h2, h3⟩ := ffbAt_eq_none_iff.mp h
    have hall : ∀ j, xs.getD j none = none := by
      intro j
      rcases lt_trichotomy j i with hj | hj | hj
      · exact prevValid_eq_none_iff.mp h2 j hj
      · exact hj ▸ h1
      · by_cases hjl : j < xs.length
        · exact nextValid_eq_none_iff.mp h3 j hj hjl
        · exact getD_of_length_le _ _ _ (by omega)
    have hall2 : ∀ j, (ffill_bfill xs).getD j none = none := by
      intro j
      rw [getD_ffill_bfill]
      by_cases hjl : j < xs.length
      · rw [if_pos hjl]; exact ffbAt_of_all_none hall j
      · rw [if_neg hjl]
    exact ffbAt_of_all_none hall2 i

/-- `ffill().bfill()` is idempotent on every column. -/
theorem ffill_bfill_idem (xs : List (Option ℚ)) :
    ffill_bfill (ffill_bfill xs) = ffill_bfill xs := by
  have hcong : ∀ i ∈ List.range xs.length,
      ffbAt (ffill_bfill xs) i = ffbAt xs i := by
    intro i hmem
    exact ffbAt_ffill_bfill xs i (List.mem_range.mp hmem)
  calc ffill_bfill (ffill_bfill xs)
      = (List.range (ffill_bfill xs).length).map
          (fun i => ffbAt (ffill_bfill xs) i) := rfl
    _ = (List.range xs.length).map (fun i => ffbAt (ffill_bfill xs) i) := by
          rw [length_ffill_bfill]
    _ = (List.range xs.length).map (fun i => ffbAt xs i) :=
          List.map_congr_left hcong
    _ = ffill_bfill xs := rfl

theorem interpAt_eq_none_iff {xs : List (Option ℚ)} {i : Nat} :
    interpAt xs i = none ↔ xs.getD i none = none ∧ prevValid xs i = none := by
  unfold interpAt
  cases hx : xs.getD i none with
  | some v => simp
  | none =>
    cases hp : prevValid xs i with
    | some jv => cases hn : nextValid xs i with
      | some kv => simp
      | none => simp
    | none => cases hn : nextValid xs i with
      | some kv => simp
      | none => simp

theorem interpAt_interpolate (xs : List (Option ℚ)) (i : Nat) (hi : i < xs.length) :
    interpAt (interpolate xs) i = interpAt xs i := by
  cases h : interpAt xs i with
  | some v =>
    have hget : (interpolate xs).getD i none = some v := by
      rw [getD_interpolate, if_pos hi, h]
    unfold interpAt
    rw [hget]
  | none =>
    obtain ⟨h1, h2⟩ := interpAt_eq_none_iff.mp h
    have hlead : ∀ j, j < i → (interpolate xs).getD j none = none := by
      intro j hj
      rw [getD_interpolate]
      by_cases hjl : j < xs.length
      · rw [if_pos hjl]
        refine interpAt_eq_none_iff.mpr ⟨prevValid_eq_none_iff.mp h2 j hj, ?_⟩
        exact prevValid_eq_none_iff.mpr fun k hk =>
          prevValid_eq_none_iff.mp h2 k (by omega)
      · rw [if_neg hjl]
    refine interpAt_eq_none_iff.mpr ⟨?_, prevValid_eq_none_iff.mpr hlead⟩
    rw [getD_interpolate, if_pos hi, h]

/-- pandas default `interpolate()` is idempotent on every column. -/
theorem interpolate_idem (xs : List (Option ℚ)) :
    interpolate (interpolate xs) = interpolate xs := by
  have hcong : ∀ i ∈ List.range xs.length,
      interpAt (interpolate xs) i = interpAt xs i := by
    intro i hmem
    exact interpAt_interpolate xs i (List.mem_range.mp hmem)
  calc interpolate (interpolate xs)
      = (List.range (interpolate xs).length).map
          (fun i => interpAt (interpolate xs) i) := rfl
    _ = (List.range xs.length).map (fun i => interpAt (interpolate xs) i) := by
          rw [length_interpolate]
    _ = (List.range xs.length).map (fun i => interpAt xs i) :=
          List.map_congr_left hcong
    _ = interpolate xs := rfl

/-! ### handle_missing_data (src/data_loader.py lines 75-114) -/

/-- Write the four indicator columns back onto the rows of a country group,
one value per row (models the per-column `transform` assignments, which are
aligned positionally with the group). -/
def setVals : List Row → List (Option ℚ) → List (Option ℚ) → List (Option ℚ) →
    List (Option ℚ) → List Row
  | r :: rs, a :: ta, b :: tb, c :: tc, d :: td =>
    { r with ann_income_pc_growth_pct := a, gdp_pc_usd := b,
             life_expectancy_years := c, population_total := d } ::
      setVals rs ta tb tc td
  | _, _, _, _, _ => []

/-- The `forward_fill` strategy on one country group: forward- then back-fill
the three time-series columns, linearly interpolate the population column. -/
def fillGroup (g : List Row) : List Row :=
  setVals g (ffill_bfill (g.map (·.ann_income_pc_growth_pct)))
    (ffill_bfill (g.map (·.gdp_pc_usd)))
    (ffill_bfill (g.map (·.life_expectancy_years)))
    (interpolate (g.map (·.population_total)))

/-- The `interpolate` strategy on one country group: linearly interpolate all
four indicator columns with `limit_direction='both'`. -/
def interpGroup (g : List Row) : List Row :=
  setVals g (interpolate_both (g.map (·.ann_income_pc_growth_pct)))
    (interpolate_both (g.map (·.gdp_pc_usd)))
    (interpolate_both (g.map (·.life_expectancy_years)))
    (interpolate_both (g.map (·.population_total)))

/-- Apply a per-country-group transform to each maximal run of rows sharing a
country (after the sort by (country, year), the rows of a country are exactly
such a run, so this models `groupby('country')` together with the aligned
column assignment). -/
def fillRuns (fill : List Row → List Row) : List Row → List Row
  | [] => []
  | r :: rest =>
    fill (r :: rest.takeWhile fun x => x.country == r.country) ++
      fillRuns fill (rest.dropWhile fun x => x.country == r.country)
termination_by l => l.length
decreasing_by
  simp_wf
  have := (List.dropWhile_sublist (fun x => x.country == r.country)
    (l := rest)).length_le
  omega

/-- Translation of `handle_missing_data(df, strategy)` (src/data_loader.py
lines 75-114): sort by (country, year), then fill per country according to the
strategy; any other strategy string (including `leave_gaps`) fills nothing. -/
def handle_missing_data (rows : List Row) (strategy : String) : List Row :=
  if strategy = "forward_fill" then fillRuns fillGroup (sortRows rows)
  else if strategy = "interpolate" then fillRuns interpGroup (sortRows rows)
  else sortRows rows

theorem setVals_map_key : ∀ (g : List Row) (a b c d : List (Option ℚ)),
    a.length = g.length → b.length = g.length → c.length = g.length →
    d.length = g.length → (setVals g a b c d).map rowKey = g.map rowKey := by
  intro g
  induction g with
  | nil =>
    intro a b c d ha hb hc hd
    rcases List.length_eq_zero.mp ha
    rcases List.length_eq_zero.mp hb
    rcases List.length_eq_zero.mp hc
    rcases List.length_eq_zero.mp hd
    rfl
  | cons r g ih =>
    intro a b c d ha hb hc hd
    rcases a with _ | ⟨x, a⟩; · simp at ha
    rcases b with _ | ⟨y, b⟩; · simp at hb
    rcases c with _ | ⟨z, c⟩; · simp at hc
    rcases d with _ | ⟨w, d⟩; · simp at hd
    simp only [setVals, List.map_cons, List.length_cons] at *
    exact congrArg₂ _ rfl (ih a b c d (by omega) (by omega) (by omega) (by omega))

theorem setVals_setVals : ∀ (g : List Row) (a b c d a' b' c' d' : List (Option ℚ)),
    a.length = g.length → b.length = g.length → c.length = g.length →
    d.length = g.length →
    setVals (setVals g a b c d) a' b' c' d' = setVals g a' b' c' d' := by
  intro g
  induction g with
  | nil =>
    intro a b c d a' b' c' d' ha hb hc hd
    rcases List.length_eq_zero.mp ha
    rcases List.length_eq_zero.mp hb
    rcases List.length_eq_zero.mp hc
    rcases List.length_eq_zero.mp hd
    rfl
  | cons r g ih =>
    intro a b c d a' b' c' d' ha hb hc hd
    rcases a with _ | ⟨x, a⟩; · simp at ha
    rcases b with _ | ⟨y, b⟩; · simp at hb
    rcases c with _ | ⟨z, c⟩; · simp at hc
    rcases d with _ | ⟨w, d⟩; · simp at hd
    rcases a' with _ | ⟨x', a'⟩
    · simp only [setVals]
    · rcases b' with _ | ⟨y', b'⟩
      · simp only [setVals]
      · rcases c' with _ | ⟨z', c'⟩
        · simp only [setVals]
        · rcases d' with _ | ⟨w', d'⟩
          · simp only [setVals]
          · simp only [setVals, List.length_cons] at *
            exact congrArg₂ _ rfl
              (ih a b c d a' b' c' d' (by omega) (by omega) (by omega) (by omega))

theorem setVals_map_ann : ∀ (g : List Row) (a b c d : List (Option ℚ)),
    a.length = g.length → b.length = g.length → c.length = g.length →
    d.length = g.length →
    (setVals g a b c d).map (·.ann_income_pc_growth_pct) = a ∧
    (setVals g a b c d).map (·.gdp_pc_usd) = b ∧
    (setVals g a b c d).map (·.life_expectancy_years) = c ∧
    (setVals g a b c d).map (·.population_total) = d := by
  intro g
  induction g with
  | nil =>
    intro a b c d ha hb hc hd
    rcases List.length_eq_zero.mp ha
    rcases List.length_eq_zero.mp hb
    rcases List.length_eq_zero.mp hc
    rcases List.length_eq_zero.mp hd
    exact ⟨rfl, rfl, rfl, rfl⟩
  | cons r g ih =>
    intro a b c d ha hb hc hd
    rcases a with _ | ⟨x, a⟩; · simp at ha
    rcases b with _ | ⟨y, b⟩; · simp at hb
    rcases c with _ | ⟨z, c⟩; · simp at hc
    rcases d with _ | ⟨w, d⟩; · simp at hd
    simp only [List.length_cons] at ha hb hc hd
    obtain ⟨i1, i2, i3, i4⟩ :=
      ih a b c d (by omega) (by omega) (by omega) (by omega)
    refine ⟨?_, ?_, ?_, ?_⟩ <;> simp only [setVals, List.map_cons]
    · rw [i1]
    · rw [i2]
    · rw [i3]
    · rw [i4]

theorem fillGroup_map_key (g : List Row) :
    (fillGroup g).map rowKey = g.map rowKey := by
  unfold fillGroup
  apply setVals_map_key <;>
    simp [length_ffill_bfill, length_interpolate]

theorem fillGroup_idem (g : List Row) : fillGroup (fillGroup g) = fillGroup g := by
  have la : (ffill_bfill (g.map (·.ann_income_pc_growth_pct))).length = g.length := by
    rw [length_ffill_bfill, List.length_map]
  have lb : (ffill_bfill (g.map (·.gdp_pc_usd))).length = g.length := by
    rw [length_ffill_bfill, List.length_map]
  have lc : (ffill_bfill (g.map (·.life_expectancy_years))).length = g.length := by
    rw [length_ffill_bfill, List.length_map]
  have ld : (interpolate (g.map (·.population_total))).length = g.length := by
    rw [length_interpolate, List.length_map]
  obtain ⟨e1, e2, e3, e4⟩ := setVals_map_ann g _ _ _ _ la lb lc ld
  unfold fillGroup
  rw [e1, e2, e3, e4, ffill_bfill_idem, ffill_bfill_idem, ffill_bfill_idem,
    interpolate_idem]
  exact setVals_setVals g _ _ _ _ _ _ _ _ la lb lc ld

theorem fillRuns_nil (fill : List Row → List Row) : fillRuns fill [] = [] := by
  rw [fillRuns]

theorem fillRuns_cons (fill : List Row → List Row) (r : Row) (rest : List Row) :
    fillRuns fill (r :: rest) =
      fill (r :: rest.takeWhile fun x => x.country == r.country) ++
        fillRuns fill (rest.dropWhile fun x => x.country == r.country) := by
  rw [fillRuns]

theorem takeWhile_append_eq {α : Type} (p : α → Bool) (l1 l2 : List α)
    (h1 : ∀ x ∈ l1, p x = true)
    (h2 : ∀ y, l2.head? = some y → p y = false) :
    (l1 ++ l2).takeWhile p = l1 ∧ (l1 ++ l2).dropWhile p = l2 := by
  induction l1 with
  | nil =>
    simp only [List.nil_append]
    cases l2 with
    | nil => exact ⟨rfl, rfl⟩
    | cons y t =>
      have hy := h2 y rfl
      constructor
      · simp [List.takeWhile_cons, hy]
      · simp [List.dropWhile_cons, hy]
  | cons x t ih =>
    have hx := h1 x (List.mem_cons_self x t)
    obtain ⟨ih1, ih2⟩ := ih fun z hz => h1 z (List.mem_cons_of_mem x hz)
    constructor
    · simp [List.takeWhile_cons, hx, ih1]
    · simp [List.dropWhile_cons, hx, ih2]

theorem head?_dropWhile_false {α : Type} (p : α → Bool) (l : List α) (y : α)
    (h : (l.dropWhile p).head? = some y) : p y = false := by
  have hm := List.head?_dropWhile_not p l
  rw [h] at hm
  exact hm

theorem fillRuns_map_key (fill : List Row → List Row)
    (hf : ∀ g, (fill g).map rowKey = g.map rowKey) (l : List Row) :
    (fillRuns fill l).map rowKey = l.map rowKey := by
  have H : ∀ (n : Nat) (l : List Row), l.length ≤ n →
      (fillRuns fill l).map rowKey = l.map rowKey := by
    intro n
    induction n with
    | zero =>
      intro l hl
      rcases List.length_eq_zero.mp (Nat.le_zero.mp hl)
      rw [fillRuns_nil]
    | succ n ih =>
      intro l hl
      cases l with
      | nil => rw [fillRuns_nil]
      | cons r rest =>
        have hdrop_le :
            (rest.dropWhile fun x => x.country == r.country).length ≤ n := by
          have := (List.dropWhile_sublist
            (fun x => x.country == r.country) (l := rest)).length_le
          simp only [List.length_cons] at hl
          omega
        have hsplit :
            (r :: rest.takeWhile fun x => x.country == r.country) ++
              (rest.dropWhile fun x => x.country == r.country) = r :: rest := by
          rw [List.cons_append, List.takeWhile_append_dropWhile]
        rw [fillRuns_cons, List.map_append, hf, ih _ hdrop_le,
          ← List.map_append, hsplit]
  exact H l.length l le_rfl

theorem map_country_of_map_key {l l' : List Row}
    (h : l'.map rowKey = l.map rowKey) :
    l'.map (·.country) = l.map (·.country) := by
  have h2 := congrArg (List.map Prod.fst) h
  simpa [List.map_map, Function.comp, rowKey] using h2

theorem fillRuns_idem (fill : List Row → List Row)
    (hf : ∀ g, (fill g).map rowKey = g.map rowKey)
    (hidem : ∀ g, fill (fill g) = fill g) (l : List Row) :
    fillRuns fill (fillRuns fill l) = fillRuns fill l := by
  have H : ∀ (n : Nat) (l : List Row), l.length ≤ n →
      fillRuns fill (fillRuns fill l) = fillRuns fill l := by
    intro n
    induction n with
    | zero =>
      intro l hl
      rcases List.length_eq_zero.mp (Nat.le_zero.mp hl)
      rw [fillRuns_nil, fillRuns_nil]
    | succ n ih =>
      intro l hl
      cases l with
      | nil => rw [fillRuns_nil, fillRuns_nil]
      | cons r rest =>
        have hdrop_le :
            (rest.dropWhile fun x => x.country == r.country).length ≤ n := by
          have := (List.dropWhile_sublist
            (fun x => x.country == r.country) (l := rest)).length_le
          simp only [List.length_cons] at hl
          omega
        rw [fillRuns_cons]
        -- the filled first group, and the recursively filled remainder
        have hgrpc : ∀ x ∈ (r :: rest.takeWhile fun x => x.country == r.country),
            x.country = r.country := by
          intro x hx
          rcases List.mem_cons.mp hx with h | h
          · rw [h]
          · simpa using List.mem_takeWhile_imp h
        have hmapc := map_country_of_map_key
          (hf (r :: rest.takeWhile fun x => x.country == r.country))
        obtain ⟨r', t', hfg⟩ : ∃ r' t',
            fill (r :: rest.takeWhile fun x => x.country == r.country) =
              r' :: t' := by
          cases hFG : fill (r :: rest.takeWhile fun x => x.country == r.country) with
          | nil => rw [hFG] at hmapc; simp at hmapc
          | cons a b => exact ⟨a, b, rfl⟩
        rw [hfg] at hmapc
        simp only [List.map_cons] at hmapc
        have hr'c : r'.country = r.country := (List.cons_eq_cons.mp hmapc).1
        have hallt' : ∀ x ∈ t', (x.country == r.country) = true := by
          intro x hx
          have hmem : x.country ∈ t'.map (·.country) := List.mem_map_of_mem _ hx
          rw [(List.cons_eq_cons.mp hmapc).2] at hmem
          obtain ⟨y, hy, hyx⟩ := List.mem_map.mp hmem
          have : y.country = r.country := by simpa using List.mem_takeWhile_imp hy
          simp [← hyx, this]
        have hXkey := fillRuns_map_key fill hf
          (rest.dropWhile fun x => x.country == r.country)
        have hXc := map_country_of_map_key hXkey
        have hXhead : ∀ y,
            (fillRuns fill (rest.dropWhile fun x => x.country == r.country)).head? =
              some y → (y.country == r.country) = false := by
          intro y hy
          have hh := congrArg List.head? hXc
          rw [List.head?_map, List.head?_map, hy] at hh
          cases hD : (rest.dropWhile fun x => x.country == r.country).head? with
          | none => rw [hD] at hh; simp at hh
          | some z =>
            rw [hD] at hh
            simp only [Option.map_some'] at hh
            have hzc : y.country = z.country := Option.some.injEq _ _ ▸ hh
            have hpz := head?_dropWhile_false
              (fun x => x.country == r.country) rest z hD
            rw [hzc]
            exact hpz
        rw [hfg, List.cons_append, fillRuns_cons]
        simp only [hr'c]
        obtain ⟨htake, hdrop⟩ := takeWhile_append_eq
          (fun x => x.country == r.country) t'
          (fillRuns fill (rest.dropWhile fun x => x.country == r.country))
          hallt' hXhead
        rw [htake, hdrop, ← hfg, hidem, ih _ hdrop_le, hfg, List.cons_append]
  exact H l.length l le_rfl

/-- C8.  The `forward_fill` strategy of `handle_missing_data` is idempotent:
applying it twice to any table yields the same table as applying it once. -/
theorem handle_missing_data_forward_fill_idem (rows : List Row) :
    handle_missing_data (handle_missing_data rows "forward_fill") "forward_fill" =
      handle_missing_data rows "forward_fill" := by
  have hkey := fillRuns_map_key fillGroup fillGroup_map_key
  have hsorted : (sortRows rows).Pairwise rowLE :=
    List.sorted_insertionSort rowLE rows
  have hsorted2 : (fillRuns fillGroup (sortRows rows)).Pairwise rowLE :=
    pairwise_rowLE_of_map_rowKey_eq (hkey _) hsorted
  have hsort_eq : sortRows (fillRuns fillGroup (sortRows rows)) =
      fillRuns fillGroup (sortRows rows) :=
    List.Sorted.insertionSort_eq hsorted2
  unfold handle_missing_data
  rw [if_pos rfl, if_pos rfl, hsort_eq,
    fillRuns_idem fillGroup fillGroup_map_key fillGroup_idem]

/-- C10.  For any strategy string other than `forward_fill` and `interpolate`
(including `leave_gaps` and unrecognized strings), `handle_missing_data`
signals no error and changes no cell: it returns exactly the input records,
only re-sorted by (country, year). -/
theorem handle_missing_data_other_strategy (rows : List Row) (strategy : String)
    (h1 : strategy ≠ "forward_fill") (h2 : strategy ≠ "interpolate") :
    handle_missing_data rows strategy = sortRows rows ∧
    (handle_missing_data rows strategy).Perm rows ∧
    (handle_missing_data rows strategy).Pairwise rowLE := by
  have he : handle_missing_data rows strategy = sortRows rows := by
    unfold handle_missing_data
    rw [if_neg h1, if_neg h2]
  refine ⟨he, ?_, ?_⟩
  · rw [he]
    exact List.perm_insertionSort rowLE rows
  · rw [he]
    exact List.sorted_insertionSort rowLE rows

/-- A small concrete table (two countries, out of order, with null cells)
used to witness the statements with hypotheses. -/
def exTable : List Row :=
  [⟨"B", some "BBB", 2001, none, some 1, none, none⟩,
   ⟨"A", some "AAA", 2000, none, none, none, some 5⟩]

/-! ### compute_ranks (src/features.py lines 8-37) -/

/-- A row of `compute_ranks` output: the original record plus the two rank
columns produced by the left merge. -/
structure RankedRow where
  base : Row
  gdp_pc_rank : Option ℚ
  population_rank : Option ℚ
  deriving DecidableEq

/-- pandas `rank(ascending=False, method='min')` of one cell against its
column: a non-null value receives 1 plus the number of non-null column values
strictly greater than it (ties therefore share the minimum rank), and a null
cell receives a null rank (`na_option='keep'`). -/
def rankValue (col : List (Option ℚ)) (v : Option ℚ) : Option ℚ :=
  v.map fun q => ((1 + (col.countP fun w => w.any fun x => q < x) : ℕ) : ℚ)

/-- Translation of `compute_ranks(df, year)` (src/features.py lines 8-37):
rank GDP and population descending with `method='min'` over the rows of the
reference year, then left-merge the two rank columns back onto every row on
the (country, iso_code) key.  The merge produces one output row per matching
reference-year row (a no-match left row gets null ranks). -/
def compute_ranks (rows : List Row) (year : Int) : List RankedRow :=
  let year_data := rows.filter fun r => r.year == year
  let gdpCol := year_data.map (·.gdp_pc_usd)
  let popCol := year_data.map (·.population_total)
  let ranked := year_data.map fun s =>
    (s, rankValue gdpCol s.gdp_pc_usd, rankValue popCol s.population_total)
  rows.flatMap fun r =>
    match ranked.filter fun t =>
        t.1.country == r.country && t.1.iso_code == r.iso_code with
    | [] => [⟨r, none, none⟩]
    | ms => ms.map fun t => ⟨r, t.2.1, t.2.2⟩

/-- The reference-year row matched by the merge key (country, iso_code)
for a given record, if any. -/
def refRowLookup (rows : List Row) (year : Int) (r : Row) : Option Row :=
  (rows.filter fun s => s.year == year).find? fun s =>
    s.country == r.country && s.iso_code == r.iso_code

/-- The rank column value the claim describes for a record: the rank, under
"ties share the minimum rank" descending ranking among the reference-year
rows, of the matched reference-year row's value — null if the country (with
its iso_code) is absent from the reference year or its value there is null. -/
def rankSpec (rows : List Row) (year : Int) (col : Row → Option ℚ) (r : Row) :
    Option ℚ :=
  (refRowLookup rows year r).bind fun s =>
    (col s).map fun q =>
      ((1 + ((rows.filter fun t => t.year == year).countP fun t =>
        (col t).any fun x => q < x) : ℕ) : ℚ)

theorem filter_find?_of_at_most_one {α : Type} (q : α → Bool) :
    ∀ l : List α, l.Pairwise (fun a b => ¬(q a = true ∧ q b = true)) →
      (l.filter q = [] ∧ l.find? q = none) ∨
      ∃ s, l.filter q = [s] ∧ l.find? q = some s := by
  intro l
  induction l with
  | nil => intro _; left; exact ⟨rfl, rfl⟩
  | cons a t ih =>
    intro h
    obtain ⟨ha, ht⟩ := List.pairwise_cons.mp h
    by_cases hqa : q a
    · right
      refine ⟨a, ?_, List.find?_cons_of_pos t hqa⟩
      rw [List.filter_cons_of_pos hqa]
      have hnil : t.filter q = [] := by
        rw [List.filter_eq_nil_iff]
        intro x hx hqx
        exact ha x hx ⟨hqa, hqx⟩
      rw [hnil]
    · have hqa' : q a = false := Bool.not_eq_true _ ▸ by simpa using hqa
      rcases ih ht with ⟨h1, h2⟩ | ⟨s, h1, h2⟩
      · left
        constructor
        · rw [List.filter_cons_of_neg (by simp [hqa']), h1]
        · rw [List.find?_cons_of_neg t hqa, h2]
      · right
        refine ⟨s, ?_, ?_⟩
        · rw [List.filter_cons_of_neg (by simp [hqa']), h1]
        · rw [List.find?_cons_of_neg t hqa, h2]

theorem flatMap_eq_map_of_singleton {α β : Type} (f : α → List β) (g : α → β) :
    ∀ l : List α, (∀ a ∈ l, f a = [g a]) → l.flatMap f = l.map g := by
  intro l
  induction l with
  | nil => intro _; rfl
  | cons a t ih =>
    intro h
    rw [List.flatMap_cons, h a (List.mem_cons_self a t),
      ih fun x hx => h x (List.mem_cons_of_mem a hx), List.map_cons,
      List.singleton_append]

/-- C6.  On a table satisfying the (country, year) uniqueness invariant,
`compute_ranks` returns the input rows in order, each augmented with the
reference-year GDP and population ranks of its (country, iso_code) key:
descending, ties sharing the minimum rank (1 + the number of strictly
greater non-null reference-year values), and null when the key is absent
from the reference year or its value there is null. -/
theorem compute_ranks_spec (rows : List Row) (year : Int)
    (huniq : rows.Pairwise fun a b => ¬(a.country = b.country ∧ a.year = b.year)) :
    compute_ranks rows year = rows.map fun r =>
      ⟨r, rankSpec rows year (·.gdp_pc_usd) r,
        rankSpec rows year (·.population_total) r⟩ := by
  simp only [compute_ranks]
  apply flatMap_eq_map_of_singleton
  intro r _
  have hyd_pair : (rows.filter fun s => s.year == year).Pairwise
      fun a b => ¬((a.country == r.country && a.iso_code == r.iso_code) = true ∧
        (b.country == r.country && b.iso_code == r.iso_code) = true) := by
    have hsub : (rows.filter fun s => s.year == year).Pairwise
        fun a b => ¬(a.country = b.country ∧ a.year = b.year) :=
      huniq.sublist (List.filter_sublist rows)
    refine hsub.imp_of_mem ?_
    intro a b hma hmb hab ⟨hqa, hqb⟩
    have hya : a.year = year := by
      simpa using (List.mem_filter.mp hma).2
    have hyb : b.year = year := by
      simpa using (List.mem_filter.mp hmb).2
    obtain ⟨hca, _⟩ := Bool.and_eq_true_iff.mp hqa
    obtain ⟨hcb, _⟩ := Bool.and_eq_true_iff.mp hqb
    exact hab ⟨by rw [beq_iff_eq.mp hca, beq_iff_eq.mp hcb], by rw [hya, hyb]⟩
  have hfm : ((rows.filter fun s => s.year == year).map fun s =>
      (s, rankValue ((rows.filter fun t => t.year == year).map (·.gdp_pc_usd))
            s.gdp_pc_usd,
        rankValue ((rows.filter fun t => t.year == year).map (·.population_total))
            s.population_total)).filter
        (fun t => t.1.country == r.country && t.1.iso_code == r.iso_code) =
      ((rows.filter fun s => s.year == year).filter fun s =>
        s.country == r.country && s.iso_code == r.iso_code).map fun s =>
      (s, rankValue ((rows.filter fun t => t.year == year).map (·.gdp_pc_usd))
            s.gdp_pc_usd,
        rankValue ((rows.filter fun t => t.year == year).map (·.population_total))
            s.population_total) := by
    rw [List.filter_map]
    rfl
  rcases filter_find?_of_at_most_one
      (fun s => s.country == r.country && s.iso_code == r.iso_code)
      (rows.filter fun s => s.year == year) hyd_pair with ⟨h1, h2⟩ | ⟨s, h1, h2⟩
  · rw [hfm, h1]
    simp [rankSpec, refRowLookup, h2]
  · rw [hfm, h1]
    simp only [List.map_cons, List.map_nil]
    simp only [rankSpec, refRowLookup, h2, rankValue, List.countP_map,
      Option.some_bind, RankedRow.mk.injEq, List.cons.injEq, and_true,
      List.map_nil]
    refine ⟨trivial, ?_, ?_⟩ <;> rfl

/-- Reference-year table with GDP values [100, 100, 50] for countries
A, B, C. -/
def c6Table : List Row :=
  [⟨"A", some "AAA", 2023, none, some 100, none, some 30⟩,
   ⟨"B", some "BBB", 2023, none, some 100, none, some 20⟩,
   ⟨"C", some "CCC", 2023, none, some 50, none, some 10⟩]

/-- Witness for C6: on the concrete reference-year table with GDP values
[100, 100, 50], the uniqueness hypothesis holds and the resulting
`gdp_pc_rank` column is [1, 1, 3]. -/
theorem compute_ranks_spec_witness :
    compute_ranks c6Table 2023 = c6Table.map (fun r =>
      ⟨r, rankSpec c6Table 2023 (·.gdp_pc_usd) r,
        rankSpec c6Table 2023 (·.population_total) r⟩) ∧
    (compute_ranks c6Table 2023).map (·.gdp_pc_rank) =
      [some 1, some 1, some 3] :=
  ⟨compute_ranks_spec c6Table 2023 (by decide), by decide⟩

/-! ### create_latest_year_snapshot (src/features.py lines 66-87) -/

/-- The order in which `groupby('country')` (with its default `sort=True`)
emits group keys. -/
def strLE (a b : String) : Prop := a ≤ b

instance : DecidableRel strLE := fun a b => by
  unfold strLE; infer_instance

instance : IsTotal String strLE := ⟨fun a b => le_total a b⟩

instance : IsTrans String strLE := ⟨fun _ _ _ h1 h2 => le_trans h1 h2⟩

/-- Translation of `create_latest_year_snapshot(df)` (src/features.py lines
66-87): `groupby('country')['year'].max()` produces one (country, max year)
row per distinct country, sorted by country; the left merge with `df` on
(country, year) then emits, for each such pair in order, the matching rows of
`df` in their order.  (A country's maximal year is attained, so the
no-match/null branch of a left merge cannot occur.) -/
def create_latest_year_snapshot (rows : List Row) : List Row :=
  (List.insertionSort strLE ((rows.map (·.country)).dedup)).flatMap fun c =>
    match ((rows.filter fun r => r.country == c).map (·.year)).max? with
    | none => []
    | some my => rows.filter fun r => r.country == c && r.year == my

/-- C9.  On a table satisfying the (country, year) uniqueness invariant, the
snapshot has exactly one row per distinct country of the table, and that row
is a row of the table attaining the maximal year of its country. -/
theorem create_latest_year_snapshot_spec (rows : List Row)
    (huniq : rows.Pairwise fun a b => ¬(a.country = b.country ∧ a.year = b.year)) :
    ((create_latest_year_snapshot rows).map (·.country)).Nodup ∧
    (∀ c, c ∈ (create_latest_year_snapshot rows).map (·.country) ↔
      c ∈ rows.map (·.country)) ∧
    ∀ s ∈ create_latest_year_snapshot rows, s ∈ rows ∧
      ∀ r ∈ rows, r.country = s.country → r.year ≤ s.year := by
  have hkey : ∀ c ∈ List.insertionSort strLE ((rows.map (·.country)).dedup),
      ∃ m, (match ((rows.filter fun r => r.country == c).map (·.year)).max? with
        | none => ([] : List Row)
        | some my => rows.filter fun r => r.country == c && r.year == my) = [m] ∧
      m ∈ rows ∧ m.country = c ∧
      ∀ r ∈ rows, r.country = c → r.year ≤ m.year := by
    intro c hc
    rw [List.mem_insertionSort, List.mem_dedup] at hc
    obtain ⟨r0, hr0, hr0c⟩ := List.mem_map.mp hc
    have hr0f : r0 ∈ rows.filter fun r => r.country == c := by
      rw [List.mem_filter]
      exact ⟨hr0, by simp [hr0c]⟩
    have hne : ((rows.filter fun r => r.country == c).map (·.year)).max?.isSome :=
      List.isSome_max?_of_mem (List.mem_map_of_mem _ hr0f)
    obtain ⟨my, hmy⟩ := Option.isSome_iff_exists.mp hne
    rw [hmy]
    have hmy_mem : my ∈ (rows.filter fun r => r.country == c).map (·.year) :=
      List.max?_mem (fun a b => max_choice a b) hmy
    have hmy_ub : ∀ y ∈ (rows.filter fun r => r.country == c).map (·.year),
        y ≤ my :=
      (List.max?_le_iff (fun a b c => max_le_iff) hmy).mp le_rfl
    obtain ⟨rm, hrmf, hrmy⟩ := List.mem_map.mp hmy_mem
    obtain ⟨hrm_mem, hrm_c⟩ := List.mem_filter.mp hrmf
    have hrm_c' : rm.country = c := by simpa using hrm_c
    have hq : (fun r : Row => r.country == c && r.year == my) rm = true := by
      simp [hrm_c', hrmy]
    rcases filter_find?_of_at_most_one
        (fun r => r.country == c && r.year == my) rows
        (huniq.imp fun {a b} hab ⟨hqa, hqb⟩ => by
          obtain ⟨ha1, ha2⟩ := Bool.and_eq_true_iff.mp hqa
          obtain ⟨hb1, hb2⟩ := Bool.and_eq_true_iff.mp hqb
          exact hab ⟨by rw [beq_iff_eq.mp ha1, beq_iff_eq.mp hb1],
            by rw [beq_iff_eq.mp ha2, beq_iff_eq.mp hb2]⟩)
        with ⟨h1, _⟩ | ⟨m, h1, _⟩
    · exfalso
      rw [List.filter_eq_nil_iff] at h1
      exact h1 rm hrm_mem hq
    · refine ⟨m, h1, ?_, ?_, ?_⟩
      · have : m ∈ rows.filter fun r => r.country == c && r.year == my := by
          rw [h1]; exact List.mem_cons_self m []
        exact (List.mem_filter.mp this).1
      · have : m ∈ rows.filter fun r => r.country == c && r.year == my := by
          rw [h1]; exact List.mem_cons_self m []
        have := (List.mem_filter.mp this).2
        exact beq_iff_eq.mp (Bool.and_eq_true_iff.mp this).1
      · intro r hr hrc
        have hmym : m.year = my := by
          have : m ∈ rows.filter fun r => r.country == c && r.year == my := by
            rw [h1]; exact List.mem_cons_self m []
          have := (List.mem_filter.mp this).2
          exact beq_iff_eq.mp (Bool.and_eq_true_iff.mp this).2
        rw [hmym]
        refine hmy_ub _ (List.mem_map_of_mem _ ?_)
        rw [List.mem_filter]
        exact ⟨hr, by simp [hrc]⟩
  have hmapc : (create_latest_year_snapshot rows).map (·.country) =
      List.insertionSort strLE ((rows.map (·.country)).dedup) := by
    unfold create_latest_year_snapshot
    generalize hl : List.insertionSort strLE ((rows.map (·.country)).dedup) = l at hkey
    clear hl
    induction l with
    | nil => rfl
    | cons c t ih =>
      obtain ⟨m, hm1, _, hm3, _⟩ := hkey c (List.mem_cons_self c t)
      rw [List.flatMap_cons, hm1, List.map_append,
        ih fun x hx => hkey x (List.mem_cons_of_mem c hx)]
      simp [hm3]
  refine ⟨?_, ?_, ?_⟩
  · rw [hmapc]
    exact (List.perm_insertionSort strLE _).nodup_iff.mpr
      ((rows.map (·.country)).nodup_dedup)
  · intro c
    rw [hmapc, List.mem_insertionSort, List.mem_dedup]
  · intro s hs
    unfold create_latest_year_snapshot at hs
    obtain ⟨c, hc, hsc⟩ := List.mem_flatMap.mp hs
    obtain ⟨m, hm1, hm2, hm3, hm4⟩ := hkey c hc
    rw [hm1, List.mem_singleton] at hsc
    subst hsc
    exact ⟨hm2, fun r hr hrc => hm4 r hr (hrc.trans hm3)⟩

/-- Witness for C9 at the concrete two-country table `exTable`. -/
theorem create_latest_year_snapshot_spec_witness :
    ((create_latest_year_snapshot exTable).map (·.country)).Nodup ∧
    (∀ c, c ∈ (create_latest_year_snapshot exTable).map (·.country) ↔
      c ∈ exTable.map (·.country)) ∧
    ∀ s ∈ create_latest_year_snapshot exTable, s ∈ exTable ∧
      ∀ r ∈ exTable, r.country = s.country → r.year ≤ s.year :=
  create_latest_year_snapshot_spec exTable (by decide)

/-! ### compute_world_aggregates and calculate_year_over_year_changes
(src/features.py lines 89-135) -/

/-- The value of one derived `pct_change` cell.  pandas/NumPy float division
can produce signed infinities, which are distinct from NaN, so the cell type
distinguishes them: `nan` models NaN (the pandas null), `inf`/`ninf` the
infinities, `val q` an ordinary finite float. -/
inductive PFloat where
  | nan : PFloat
  | inf : PFloat
  | ninf : PFloat
  | val (q : ℚ) : PFloat
  deriving DecidableEq

/-- One cell of `groupby('country')[metric].pct_change() * 100`: the change
from `prev` to `cur`.  A NaN (null) previous or current value yields NaN; a
zero previous value yields 0/0 = NaN when the current value is also zero and
a signed infinity otherwise (NumPy float semantics); otherwise the ordinary
percentage change. -/
def pct_change_cell (prev cur : Option ℚ) : PFloat :=
  match prev, cur with
  | none, _ => PFloat.nan
  | _, none => PFloat.nan
  | some p, some c =>
    if p = 0 then
      if c = 0 then PFloat.nan
      else if 0 < c then PFloat.inf
      else PFloat.ninf
    else PFloat.val ((c - p) / p * 100)

/-- `pct_change()` over a whole per-country column: the first cell is NaN
(no preceding row), every later cell is the change from its predecessor. -/
def pct_change_series : List (Option ℚ) → List PFloat
  | [] => []
  | x :: rest => PFloat.nan :: pct_change_go x rest
where
  pct_change_go : Option ℚ → List (Option ℚ) → List PFloat
  | _, [] => []
  | prev, y :: rest => pct_change_cell prev y :: pct_change_go y rest

/-- A row of `calculate_year_over_year_changes` output: the original record
plus the three YoY percentage-change columns. -/
structure YoyRow where
  base : Row
  gdp_pc_usd_yoy_pct : PFloat
  life_expectancy_years_yoy_pct : PFloat
  population_total_yoy_pct : PFloat
  deriving DecidableEq

/-- Attach the three YoY columns to the rows of a country group. -/
def setYoy : List Row → List PFloat → List PFloat → List PFloat → List YoyRow
  | r :: rs, a :: ta, b :: tb, c :: tc =>
    ⟨r, a, b, c⟩ :: setYoy rs ta tb tc
  | _, _, _, _ => []

/-- YoY columns for one country group. -/
def yoyGroup (g : List Row) : List YoyRow :=
  setYoy g (pct_change_series (g.map (·.gdp_pc_usd)))
    (pct_change_series (g.map (·.life_expectancy_years)))
    (pct_change_series (g.map (·.population_total)))

/-- Apply `yoyGroup` to each maximal run of rows sharing a country (the
groups of `groupby('country')` after the sort). -/
def yoyRuns : List Row → List YoyRow
  | [] => []
  | r :: rest =>
    yoyGroup (r :: rest.takeWhile fun x => x.country == r.country) ++
      yoyRuns (rest.dropWhile fun x => x.country == r.country)
termination_by l => l.length
decreasing_by
  simp_wf
  have := (List.dropWhile_sublist (fun x => x.country == r.country)
    (l := rest)).length_le
  omega

/-- Translation of `calculate_year_over_year_changes(df)` (src/features.py
lines 113-135): sort by (country, year), then take per-country
`pct_change() * 100` for GDP, life expectancy and population. -/
def calculate_year_over_year_changes (rows : List Row) : List YoyRow :=
  yoyRuns (sortRows rows)

/-- NumPy sum semantics over nullable cells (as inside `np.average`): any
NaN cell makes the whole sum NaN. -/
def sumOptNaN (xs : List (Option ℚ)) : Option ℚ :=
  xs.foldr (fun a acc =>
    match a, acc with
    | some x, some s => some (x + s)
    | _, _ => none) (some 0)

/-- pandas `Series.sum()` semantics (default `skipna=True`): null cells are
skipped and an all-null column sums to 0. -/
def sumSkipNA (xs : List (Option ℚ)) : ℚ := (xs.filterMap id).sum

/-- `np.average(vals, weights=weights)`: raises `ZeroDivisionError` when the
weight sum is exactly zero, and otherwise returns sum(v·w)/sum(w) with NaN
propagation (a NaN weight sum compares unequal to zero, so it does not raise
and the result is NaN). -/
def npAverage (vals weights : List (Option ℚ)) : Except String (Option ℚ) :=
  match sumOptNaN weights with
  | some s =>
    if s = 0 then Except.error "Weights sum to zero"
    else Except.ok
      (match sumOptNaN (List.zipWith (fun v w =>
          match v, w with
          | some a, some b => some (a * b)
          | _, _ => none) vals weights) with
        | some num => some (num / s)
        | none => none)
  | none => Except.ok none

/-- One row of the `world_aggregates` table. -/
structure WorldRow where
  year : Int
  world_gdp_pc_weighted : Option ℚ
  world_life_expectancy_weighted : Option ℚ
  world_income_growth_weighted : Option ℚ
  world_population_total : Option ℚ
  deriving DecidableEq

/-- The distinct years of the table in ascending order: the group keys of
`groupby('year')`. -/
def yearsOf (rows : List Row) : List Int :=
  List.insertionSort (fun a b => a ≤ b) ((rows.map (·.year)).dedup)

/-- Translation of `compute_world_aggregates(df)` (src/features.py lines
89-111): for each year group, `np.average` of GDP, life expectancy and income
growth weighted by population, plus the (NaN-skipping) population sum.  An
exception raised inside the `groupby(...).apply` lambda propagates to the
caller, hence the `Except` result. -/
def applyYears (f : Int → Except String WorldRow) : List Int → Except String (List WorldRow)
  | [] => Except.ok []
  | y :: t => do
    let w ← f y
    let ws ← applyYears f t
    pure (w :: ws)

/-- See `applyYears` just above for the `groupby('year').apply` traversal. -/
def compute_world_aggregates (rows : List Row) : Except String (List WorldRow) :=
  applyYears (fun y => do
    let gdp ← npAverage ((rows.filter fun r => r.year == y).map (·.gdp_pc_usd))
      ((rows.filter fun r => r.year == y).map (·.population_total))
    let life ← npAverage
      ((rows.filter fun r => r.year == y).map (·.life_expectancy_years))
      ((rows.filter fun r => r.year == y).map (·.population_total))
    let inc ← npAverage
      ((rows.filter fun r => r.year == y).map (·.ann_income_pc_growth_pct))
      ((rows.filter fun r => r.year == y).map (·.population_total))
    pure ⟨y, gdp, life, inc,
      some (sumSkipNA ((rows.filter fun r => r.year == y).map (·.population_total)))⟩)
    (yearsOf rows)

theorem applyYears_error {f : Int → Except String WorldRow} :
    ∀ l : List Int, (∃ a ∈ l, ∃ e, f a = Except.error e) →
      ∃ e, applyYears f l = Except.error e := by
  intro l
  induction l with
  | nil => rintro ⟨a, ha, _⟩; exact absurd ha (List.not_mem_nil a)
  | cons x t ih =>
    rintro ⟨a, ha, e, he⟩
    cases hfx : f x with
    | error e0 =>
      refine ⟨e0, ?_⟩
      show Except.bind (f x) _ = Except.error e0
      rw [hfx]
      rfl
    | ok v =>
      rcases List.mem_cons.mp ha with rfl | hat
      · rw [hfx] at he; exact absurd he (by simp)
      · obtain ⟨e1, he1⟩ := ih ⟨a, hat, e, he⟩
        refine ⟨e1, ?_⟩
        show Except.bind (f x) _ = Except.error e1
        rw [hfx]
        show Except.bind (applyYears f t) _ = Except.error e1
        rw [he1]
        rfl

theorem applyYears_ok {f : Int → Except String WorldRow} (g : Int → WorldRow) :
    ∀ l : List Int, (∀ a ∈ l, f a = Except.ok (g a)) →
      applyYears f l = Except.ok (l.map g) := by
  intro l
  induction l with
  | nil => intro _; rfl
  | cons x t ih =>
    intro h
    show Except.bind (f x) _ = _
    rw [h x (List.mem_cons_self x t)]
    show Except.bind (applyYears f t) _ = _
    rw [ih fun a ha => h a (List.mem_cons_of_mem x ha)]
    rfl

theorem sumOptNaN_all_some (xs : List (Option ℚ))
    (h : ∀ x ∈ xs, x.isSome) :
    sumOptNaN xs = some ((xs.map fun x => x.getD 0).sum) := by
  induction xs with
  | nil => rfl
  | cons x t ih =>
    obtain ⟨a, ha⟩ := Option.isSome_iff_exists.mp (h x (List.mem_cons_self x t))
    rw [ha] at *
    unfold sumOptNaN
    rw [List.foldr_cons]
    have := ih fun y hy => h y (List.mem_cons_of_mem x hy)
    unfold sumOptNaN at this
    rw [this]
    simp

theorem sumSkipNA_all_some (xs : List (Option ℚ))
    (h : ∀ x ∈ xs, x.isSome) :
    sumSkipNA xs = (xs.map fun x => x.getD 0).sum := by
  unfold sumSkipNA
  induction xs with
  | nil => rfl
  | cons x t ih =>
    obtain ⟨a, ha⟩ := Option.isSome_iff_exists.mp (h x (List.mem_cons_self x t))
    rw [ha] at *
    rw [List.filterMap_cons, List.map_cons]
    simp only [id]
    rw [List.sum_cons, ih fun y hy => h y (List.mem_cons_of_mem x hy)]
    simp

theorem zipWith_map_same {α β γ δ : Type} (f : β → γ → δ)
    (g1 : α → β) (g2 : α → γ) :
    ∀ l : List α, List.zipWith f (l.map g1) (l.map g2) =
      l.map fun x => f (g1 x) (g2 x) := by
  intro l
  induction l with
  | nil => rfl
  | cons x t ih => simp [ih]

theorem yoyRuns_nil : yoyRuns [] = [] := by
  rw [yoyRuns]

theorem yoyRuns_cons (r : Row) (rest : List Row) :
    yoyRuns (r :: rest) =
      yoyGroup (r :: rest.takeWhile fun x => x.country == r.country) ++
        yoyRuns (rest.dropWhile fun x => x.country == r.country) := by
  rw [yoyRuns]

/-- C2, amended.  Division-by-zero behaviour of the derived computations:
a null (NaN) prior value in a year-over-year change yields a NaN cell without
raising; a zero prior value yields NaN only when the current value is also
zero, and otherwise a signed infinity — a non-null cell — still without
raising; and a zero population sum within a year makes
`compute_world_aggregates` raise a division error for the whole computation
instead of producing a null cell. -/
theorem division_by_zero_behavior :
    (∀ cur : Option ℚ, pct_change_cell none cur = PFloat.nan) ∧
    (pct_change_cell (some 0) (some 0) = PFloat.nan) ∧
    (∀ c : ℚ, c ≠ 0 →
      pct_change_cell (some 0) (some c) =
        (if 0 < c then PFloat.inf else PFloat.ninf) ∧
      pct_change_cell (some 0) (some c) ≠ PFloat.nan) ∧
    (∀ rows : List Row, ∀ y, y ∈ yearsOf rows →
      sumOptNaN ((rows.filter fun r => r.year == y).map (·.population_total)) =
        some 0 →
      ∃ e, compute_world_aggregates rows = Except.error e) := by
  refine ⟨fun cur => by cases cur <;> rfl, by decide, ?_, ?_⟩
  · intro c hc
    have hred : pct_change_cell (some 0) (some c) =
        if (0 : ℚ) = 0 then
          (if c = 0 then PFloat.nan
            else if 0 < c then PFloat.inf else PFloat.ninf)
        else PFloat.val ((c - 0) / 0 * 100) := rfl
    constructor
    · rw [hred, if_pos rfl, if_neg hc]
    · rw [hred, if_pos rfl, if_neg hc]
      split_ifs <;> simp
  · intro rows y hy hsum
    unfold compute_world_aggregates
    apply applyYears_error
    refine ⟨y, hy, "Weights sum to zero", ?_⟩
    have hnp : npAverage
        ((rows.filter fun r => r.year == y).map (·.gdp_pc_usd))
        ((rows.filter fun r => r.year == y).map (·.population_total)) =
        Except.error "Weights sum to zero" := by
      unfold npAverage
      rw [hsum]
      exact if_pos rfl
    show Except.bind (npAverage _ _) _ = _
    rw [hnp]
    rfl

/-- Two years of one country whose GDP goes from 0 to 5: the prior value of
the second year is zero. -/
def c2YoyTable : List Row :=
  [⟨"A", some "AAA", 2000, none, some 0, none, none⟩,
   ⟨"A", some "AAA", 2001, none, some 5, none, none⟩]

/-- A single year whose only country has population 0, so the population
weight sum of that year is zero. -/
def c2AggTable : List Row :=
  [⟨"A", some "AAA", 2000, some 1, some 100, some 50, some 0⟩]

/-- C2, counterexample.  With a zero prior-year GDP and a non-zero current
GDP, the YoY cell is +infinity — not null — and with a zero population sum,
`compute_world_aggregates` raises a ZeroDivisionError instead of producing a
null cell; both contradict the claim that every division-by-zero resolves to
a null cell without raising. -/
theorem division_by_zero_counterexample :
    (calculate_year_over_year_changes c2YoyTable).map (·.gdp_pc_usd_yoy_pct) =
      [PFloat.nan, PFloat.inf] ∧
    PFloat.inf ≠ PFloat.nan ∧
    compute_world_aggregates c2AggTable = Except.error "Weights sum to zero" := by
  refine ⟨?_, by decide, ?_⟩
  · have hs : sortRows c2YoyTable = c2YoyTable := by
      apply List.Sorted.insertionSort_eq
      refine List.pairwise_cons.mpr ⟨?_, List.pairwise_singleton _ _⟩
      intro b hb
      rw [List.mem_singleton] at hb
      subst hb
      exact Or.inr ⟨rfl, by decide⟩
    unfold calculate_year_over_year_changes
    rw [hs]
    show (yoyRuns
      [⟨"A", some "AAA", 2000, none, some 0, none, none⟩,
       ⟨"A", some "AAA", 2001, none, some 5, none, none⟩]).map
        (·.gdp_pc_usd_yoy_pct) = [PFloat.nan, PFloat.inf]
    rw [yoyRuns_cons]
    have ht : List.takeWhile
        (fun x : Row => x.country == ("A" : String))
        [⟨"A", some "AAA", 2001, none, some 5, none, none⟩] =
        [⟨"A", some "AAA", 2001, none, some 5, none, none⟩] := by decide
    have hd : List.dropWhile
        (fun x : Row => x.country == ("A" : String))
        [⟨"A", some "AAA", 2001, none, some 5, none, none⟩] = [] := by decide
    rw [ht, hd, yoyRuns_nil]
    decide
  · have hy : yearsOf c2AggTable = [2000] := by decide
    have hW : sumOptNaN ((c2AggTable.filter fun r => r.year == 2000).map
        (·.population_total)) = some 0 := by
      show some ((0 : ℚ) + 0) = some 0
      norm_num
    have hnp : npAverage
        ((c2AggTable.filter fun r => r.year == 2000).map (·.gdp_pc_usd))
        ((c2AggTable.filter fun r => r.year == 2000).map (·.population_total)) =
        Except.error "Weights sum to zero" := by
      unfold npAverage
      rw [hW]
      exact if_pos rfl
    unfold compute_world_aggregates
    rw [hy]
    show Except.bind (Except.bind (npAverage _ _) _) _ = _
    rw [hnp]
    rfl

/-- The population-weighted mean of a column over the rows of one year group,
as the specification describes it: sum of value×population divided by the sum
of population. -/
def weightedSpec (g : List Row) (col : Row → Option ℚ) : ℚ :=
  (g.map fun r => (col r).getD 0 * (r.population_total).getD 0).sum /
    (g.map fun r => (r.population_total).getD 0).sum

theorem ok_bind {α β : Type} (a : α) (f : α → Except String β) :
    (Except.ok a : Except String α) >>= f = f a := rfl

theorem npAverage_all_some (g : List Row) (col : Row → Option ℚ)
    (hcol : ∀ r ∈ g, (col r).isSome)
    (hpop : ∀ r ∈ g, (r.population_total).isSome)
    (hS : (g.map fun r => (r.population_total).getD 0).sum ≠ 0) :
    npAverage (g.map col) (g.map (·.population_total)) =
      Except.ok (some (weightedSpec g col)) := by
  have hWs : sumOptNaN (g.map (·.population_total)) =
      some ((g.map fun r => (r.population_total).getD 0).sum) := by
    rw [sumOptNaN_all_some]
    · rw [List.map_map]
      rfl
    · intro x hx
      obtain ⟨r, hr, hrx⟩ := List.mem_map.mp hx
      rw [← hrx]
      exact hpop r hr
  have hz : List.zipWith (fun v w =>
      match v, w with
      | some a, some b => some (a * b)
      | _, _ => none) (g.map col) (g.map (·.population_total)) =
      g.map fun r => some ((col r).getD 0 * (r.population_total).getD 0) := by
    rw [zipWith_map_same]
    apply List.map_congr_left
    intro r hr
    obtain ⟨a, ha⟩ := Option.isSome_iff_exists.mp (hcol r hr)
    obtain ⟨b, hb⟩ := Option.isSome_iff_exists.mp (hpop r hr)
    rw [ha, hb]
    simp
  have hnum : sumOptNaN (g.map fun r =>
      some ((col r).getD 0 * (r.population_total).getD 0)) =
      some ((g.map fun r =>
        (col r).getD 0 * (r.population_total).getD 0).sum) := by
    rw [sumOptNaN_all_some]
    · rw [List.map_map]
      rfl
    · intro x hx
      obtain ⟨r, _, hrx⟩ := List.mem_map.mp hx
      rw [← hrx]
      rfl
  unfold npAverage
  rw [hWs]
  show (if _ = 0 then _ else _) = _
  rw [if_neg hS, hz, hnum]
  rfl

/-- C3, amended.  `compute_world_aggregates` produces one row per distinct
year of the table (ascending); when every country of a year has non-null
values and population (and the population sum is non-zero), each weighted
cell equals sum(value×population)/sum(population) over all that year's
countries — the restriction "to the countries with non-null inputs" does not
hold: a null input makes the whole cell null instead (see the
counterexample). -/
theorem compute_world_aggregates_spec (rows : List Row)
    (hall : ∀ r ∈ rows, (r.gdp_pc_usd).isSome ∧
      (r.life_expectancy_years).isSome ∧
      (r.ann_income_pc_growth_pct).isSome ∧ (r.population_total).isSome)
    (hnz : ∀ y ∈ yearsOf rows,
      ((rows.filter fun r => r.year == y).map
        fun r => (r.population_total).getD 0).sum ≠ 0) :
    compute_world_aggregates rows = Except.ok ((yearsOf rows).map fun y =>
      ⟨y,
        some (weightedSpec (rows.filter fun r => r.year == y) (·.gdp_pc_usd)),
        some (weightedSpec (rows.filter fun r => r.year == y)
          (·.life_expectancy_years)),
        some (weightedSpec (rows.filter fun r => r.year == y)
          (·.ann_income_pc_growth_pct)),
        some (((rows.filter fun r => r.year == y).map
          fun r => (r.population_total).getD 0).sum)⟩) := by
  unfold compute_world_aggregates
  apply applyYears_ok
  intro y hy
  have hmem : ∀ r ∈ rows.filter fun r => r.year == y, r ∈ rows :=
    fun r hr => (List.mem_filter.mp hr).1
  have h1 := npAverage_all_some (rows.filter fun r => r.year == y)
    (·.gdp_pc_usd) (fun r hr => (hall r (hmem r hr)).1)
    (fun r hr => (hall r (hmem r hr)).2.2.2) (hnz y hy)
  have h2 := npAverage_all_some (rows.filter fun r => r.year == y)
    (·.life_expectancy_years) (fun r hr => (hall r (hmem r hr)).2.1)
    (fun r hr => (hall r (hmem r hr)).2.2.2) (hnz y hy)
  have h3 := npAverage_all_some (rows.filter fun r => r.year == y)
    (·.ann_income_pc_growth_pct) (fun r hr => (hall r (hmem r hr)).2.2.1)
    (fun r hr => (hall r (hmem r hr)).2.2.2) (hnz y hy)
  have h4 : sumSkipNA ((rows.filter fun r => r.year == y).map
      (·.population_total)) =
      ((rows.filter fun r => r.year == y).map
        fun r => (r.population_total).getD 0).sum := by
    rw [sumSkipNA_all_some]
    · rw [List.map_map]
      rfl
    · intro x hx
      obtain ⟨r, hr, hrx⟩ := List.mem_map.mp hx
      rw [← hrx]
      exact (hall r (hmem r hr)).2.2.2
  show (npAverage _ _ >>= _) = _
  rw [h1, ok_bind]
  show (npAverage _ _ >>= _) = _
  rw [h2, ok_bind]
  show (npAverage _ _ >>= _) = _
  rw [h3, ok_bind, h4]
  rfl

/-- A year in which country A has GDP 100 with population 10 and country B
has a null GDP with population 90: the weighted mean over the non-null
subset would be 100. -/
def c3Table : List Row :=
  [⟨"A", some "AAA", 2000, some 1, some 100, some 50, some 10⟩,
   ⟨"B", some "BBB", 2000, some 2, none, some 60, some 90⟩]

/-- C3, counterexample.  With one null GDP input in the year, the code's
`world_gdp_pc_weighted` cell is null (NaN propagates through `np.average`),
not the population-weighted mean 100 of the countries with non-null inputs
as the claim states; the non-null columns of the same year are still
averaged over all rows. -/
theorem compute_world_aggregates_null_counterexample :
    compute_world_aggregates c3Table =
      Except.ok [⟨2000, none, some 59, some (19/10), some 100⟩] ∧
    (⟨2000, none, some 59, some (19/10), some 100⟩ :
      WorldRow).world_gdp_pc_weighted ≠ some (100 * 10 / 10 : ℚ) := by
  constructor
  · have hy : yearsOf c3Table = [2000] := by decide
    have hf : (c3Table.filter fun r => r.year == (2000 : Int)) = c3Table := by
      decide
    have hW : sumOptNaN (c3Table.map (·.population_total)) = some 100 := by
      show some ((10 : ℚ) + (90 + 0)) = some 100
      norm_num
    have h1 : npAverage (c3Table.map (·.gdp_pc_usd))
        (c3Table.map (·.population_total)) = Except.ok none := by
      unfold npAverage
      rw [hW]
      show (if _ = 0 then _ else _) = _
      rw [if_neg (by norm_num : (100 : ℚ) ≠ 0)]
      rfl
    have h2 : npAverage (c3Table.map (·.life_expectancy_years))
        (c3Table.map (·.population_total)) = Except.ok (some 59) := by
      unfold npAverage
      rw [hW]
      show (if _ = 0 then _ else _) = _
      rw [if_neg (by norm_num : (100 : ℚ) ≠ 0)]
      show Except.ok (some (((50 : ℚ) * 10 + (60 * 90 + 0)) / 100)) = _
      norm_num
    have h3 : npAverage (c3Table.map (·.ann_income_pc_growth_pct))
        (c3Table.map (·.population_total)) = Except.ok (some (19/10)) := by
      unfold npAverage
      rw [hW]
      show (if _ = 0 then _ else _) = _
      rw [if_neg (by norm_num : (100 : ℚ) ≠ 0)]
      show Except.ok (some (((1 : ℚ) * 10 + (2 * 90 + 0)) / 100)) = _
      norm_num
    have h4 : sumSkipNA (c3Table.map (·.population_total)) = 100 := by
      show (10 : ℚ) + (90 + 0) = 100
      norm_num
    unfold compute_world_aggregates
    rw [hy]
    apply applyYears_ok fun _ => ⟨2000, none, some 59, some (19/10), some 100⟩
    intro a ha
    rw [List.mem_singleton] at ha
    subst ha
    simp only [hf]
    show (npAverage _ _ >>= _) = _
    rw [h1, ok_bind]
    show (npAverage _ _ >>= _) = _
    rw [h2, ok_bind]
    show (npAverage _ _ >>= _) = _
    rw [h3, ok_bind, h4]
    rfl
  · simp

/-- A year with two countries of populations [10, 90] and GDP [100, 200],
all inputs non-null. -/
def c3WitnessTable : List Row :=
  [⟨"A", some "AAA", 2000, some 1, some 100, some 70, some 10⟩,
   ⟨"B", some "BBB", 2000, some 2, some 200, some 80, some 90⟩]

/-- Witness for C3: on the all-non-null table, the hypotheses hold and the
weighted GDP of the year is (10·100 + 90·200)/100 = 190. -/
theorem compute_world_aggregates_spec_witness :
    compute_world_aggregates c3WitnessTable =
      Except.ok ((yearsOf c3WitnessTable).map fun y =>
        ⟨y,
          some (weightedSpec (c3WitnessTable.filter fun r => r.year == y)
            (·.gdp_pc_usd)),
          some (weightedSpec (c3WitnessTable.filter fun r => r.year == y)
            (·.life_expectancy_years)),
          some (weightedSpec (c3WitnessTable.filter fun r => r.year == y)
            (·.ann_income_pc_growth_pct)),
          some (((c3WitnessTable.filter fun r => r.year == y).map
            fun r => (r.population_total).getD 0).sum)⟩) ∧
    weightedSpec (c3WitnessTable.filter fun r => r.year == (2000 : Int))
      (·.gdp_pc_usd) = 190 := by
  constructor
  · apply compute_world_aggregates_spec
    · decide
    · intro y hy
      rw [show yearsOf c3WitnessTable = [2000] from by decide,
        List.mem_singleton] at hy
      subst hy
      rw [show (c3WitnessTable.filter fun r => r.year == (2000 : Int)) =
        c3WitnessTable from by decide]
      show ((10 : ℚ) + (90 + 0)) ≠ 0
      norm_num
  · rw [show (c3WitnessTable.filter fun r => r.year == (2000 : Int)) =
      c3WitnessTable from by decide]
    show ((100 * 10 + (200 * 90 + 0)) / (10 + (90 + 0)) : ℚ) = 190
    norm_num

/-- Witness for C2 at concrete inputs: a null prior GDP gives a NaN cell, a
0→5 change gives +infinity (not NaN), and the zero-population-sum table makes
the aggregate computation raise. -/
theorem division_by_zero_behavior_witness :
    pct_change_cell none (some 5) = PFloat.nan ∧
    (pct_change_cell (some 0) (some 5) =
      (if (0 : ℚ) < 5 then PFloat.inf else PFloat.ninf) ∧
      pct_change_cell (some 0) (some 5) ≠ PFloat.nan) ∧
    ∃ e, compute_world_aggregates c2AggTable = Except.error e :=
  ⟨division_by_zero_behavior.1 (some 5),
    division_by_zero_behavior.2.2.1 5 (by norm_num),
    division_by_zero_behavior.2.2.2 c2AggTable 2000 (by decide)
      (by show some ((0 : ℚ) + 0) = some 0; norm_num)⟩


/-- Witness for C10 at the concrete strategy `leave_gaps` and table
`exTable`. -/
theorem handle_missing_data_other_strategy_witness :
    handle_missing_data exTable "leave_gaps" = sortRows exTable ∧
    (handle_missing_data exTable "leave_gaps").Perm exTable ∧
    (handle_missing_data exTable "leave_gaps").Pairwise rowLE :=
  handle_missing_data_other_strategy exTable "leave_gaps"
    (by decide) (by decide)

/-! ### Forecasting (src/forecast.py) -/

/-- The `type` tag of a forecast output row. -/
inductive PointKind where
  | Historical : PointKind
  | Forecast : PointKind
  deriving DecidableEq

/-- One row of a forecast result (`ForecastPoint` of the spec). -/
structure ForecastPoint where
  year : Int
  value : ℚ
  kind : PointKind
  deriving DecidableEq

/-- Ascending-year order on (year, value) samples, as produced by
`sort_index()`. -/
def yearLE (a b : Int × ℚ) : Prop := a.1 ≤ b.1

instance : DecidableRel yearLE := fun a b => by
  unfold yearLE; infer_instance

instance : IsTotal (Int × ℚ) yearLE := ⟨fun a b => le_total a.1 b.1⟩

instance : IsTrans (Int × ℚ) yearLE := ⟨fun _ _ _ h1 h2 => le_trans h1 h2⟩

/-- Translation of `prepare_forecast_data(main_data, country, indicator,
min_data_points)` (src/forecast.py lines 12-33): filter to the country
(`None` — here `none` — if it has no rows), keep the non-null (year, value)
pairs (`dropna`), signal `None` if fewer than `min_data_points` remain, and
otherwise sort by year. -/
def prepare_forecast_data (rows : List Row) (country : String)
    (indicator : Row → Option ℚ) (min_data_points : Nat) :
    Option (List (Int × ℚ)) :=
  let country_data := rows.filter fun r => r.country == country
  if country_data.isEmpty then none
  else
    let ts_data := country_data.filterMap fun r =>
      (indicator r).map fun v => (r.year, v)
    if ts_data.length < min_data_points then none
    else some (List.insertionSort yearLE ts_data)

/-- `ts_data.index.max()`: the maximal observed year. -/
def lastYear (ts : List (Int × ℚ)) : Int :=
  match ts.map Prod.fst with
  | [] => 0
  | y :: t => t.foldl max y

/-- The OLS line `value ~ year` fit by `sklearn.linear_model.LinearRegression`
(centred least squares; on a degenerate design — all years equal — `lstsq`
returns the minimum-norm solution: slope 0, intercept the mean). -/
def olsFit (ts : List (Int × ℚ)) : ℚ × ℚ :=
  if ts.length = 0 then (0, 0)
  else
    let n : ℚ := ts.length
    let xbar := ((ts.map fun p => (p.1 : ℚ)).sum) / n
    let ybar := ((ts.map Prod.snd).sum) / n
    let sxx := (ts.map fun p => ((p.1 : ℚ) - xbar) ^ 2).sum
    let sxy := (ts.map fun p => ((p.1 : ℚ) - xbar) * (p.2 - ybar)).sum
    let slope := if sxx = 0 then 0 else sxy / sxx
    (slope, ybar - slope * xbar)

/-- Translation of `linear_regression_forecast(ts_data, forecast_years)`
(src/forecast.py lines 35-67): the observed points tagged Historical, then
the fitted line evaluated at `np.arange(last_year + 1,
last_year + forecast_years + 1)` tagged Forecast. -/
def linear_regression_forecast (ts : List (Int × ℚ)) (forecast_years : Nat) :
    List ForecastPoint :=
  ts.map (fun p => ⟨p.1, p.2, PointKind.Historical⟩) ++
    (List.range forecast_years).map fun i : Nat =>
      ⟨lastYear ts + 1 + (i : Int),
        (olsFit ts).1 * ((lastYear ts + 1 + (i : Int) : Int) : ℚ) +
          (olsFit ts).2,
        PointKind.Forecast⟩

/-- The body of the `try` block of `exponential_smoothing_forecast`
(src/forecast.py lines 73-99).  The statsmodels Holt-Winters fit is an
external numerical routine, abstracted as the `fit` parameter: it either
fails (modelling any exception — degenerate series, non-convergence, ...) or
yields the forecast values; the rest of the block builds the Historical rows
and the Forecast rows at years `range(max + 1, max + forecast_years + 1)`. -/
def esTryBody (fit : List (Int × ℚ) → Nat → Except String (Nat → ℚ))
    (ts : List (Int × ℚ)) (forecast_years : Nat) :
    Except String (List ForecastPoint) := do
  let f ← fit ts forecast_years
  pure (ts.map (fun p => ⟨p.1, p.2, PointKind.Historical⟩) ++
    (List.range forecast_years).map fun i : Nat =>
      ⟨lastYear ts + 1 + (i : Int), f i, PointKind.Forecast⟩)

/-- Translation of `exponential_smoothing_forecast(ts_data, forecast_years)`
(src/forecast.py lines 69-102): run the `try` block; on any failure fall back
to `linear_regression_forecast` on the same series and horizon. -/
def exponential_smoothing_forecast
    (fit : List (Int × ℚ) → Nat → Except String (Nat → ℚ))
    (ts : List (Int × ℚ)) (forecast_years : Nat) : List ForecastPoint :=
  match esTryBody fit ts forecast_years with
  | Except.ok res => res
  | Except.error _ => linear_regression_forecast ts forecast_years

theorem foldl_max_sorted : ∀ (t : List Int) (y : Int),
    (y :: t).Pairwise (fun a b => a ≤ b) →
    t.foldl max y = (y :: t).getLastD 0 := by
  intro t
  induction t with
  | nil => intro y _; rfl
  | cons z t' ih =>
    intro y hp
    obtain ⟨hy, hp'⟩ := List.pairwise_cons.mp hp
    have hyz : y ≤ z := hy z (List.mem_cons_self z t')
    show t'.foldl max (max y z) = _
    rw [max_eq_right hyz, List.getLastD_cons, List.getLastD_cons]
    have := ih z hp'
    rw [List.getLastD_cons] at this
    exact this

/-- On a non-empty series sorted by year, `ts_data.index.max()` is the year
of the last point. -/
theorem lastYear_eq_getLast (ts : List (Int × ℚ)) (hne : ts ≠ [])
    (hsort : ts.Pairwise yearLE) : lastYear ts = (ts.getLastD (0, 0)).1 := by
  cases ts with
  | nil => exact absurd rfl hne
  | cons p t =>
    show (t.map Prod.fst).foldl max p.1 = ((p :: t).getLastD (0, 0)).1
    have h1 : (p.1 :: t.map Prod.fst).Pairwise fun a b => a ≤ b := by
      have h0 : ((p :: t).map Prod.fst).Pairwise fun a b => a ≤ b :=
        List.pairwise_map.mpr hsort
      exact h0
    rw [foldl_max_sorted (t.map Prod.fst) p.1 h1]
    have h2 := List.getLastD_map Prod.fst (p :: t) (0, 0)
    rw [← h2]
    rfl

/-- C4.  For every non-empty year-sorted series and horizon h ≥ 1, both
forecast functions return the Historical points first — the observed points,
unchanged and in ascending year order — followed by exactly h Forecast
points with ascending contiguous years starting at the year after the last
historical year. -/
theorem forecast_output_contract (ts : List (Int × ℚ)) (h : Nat)
    (fit : List (Int × ℚ) → Nat → Except String (Nat → ℚ))
    (hne : ts ≠ []) (hsort : ts.Pairwise yearLE) (hh : 1 ≤ h) :
    ∃ fc1 fc2 : List ForecastPoint,
      linear_regression_forecast ts h =
        ts.map (fun p => ⟨p.1, p.2, PointKind.Historical⟩) ++ fc1 ∧
      exponential_smoothing_forecast fit ts h =
        ts.map (fun p => ⟨p.1, p.2, PointKind.Historical⟩) ++ fc2 ∧
      ((ts.map fun p =>
        (⟨p.1, p.2, PointKind.Historical⟩ : ForecastPoint)).map
          (·.year)).Pairwise (fun a b => a ≤ b) ∧
      fc1.length = h ∧ fc2.length = h ∧
      fc1.map (·.year) =
        (List.range h).map (fun i : Nat => (ts.getLastD (0, 0)).1 + 1 + (i : Int)) ∧
      fc2.map (·.year) =
        (List.range h).map (fun i : Nat => (ts.getLastD (0, 0)).1 + 1 + (i : Int)) ∧
      (∀ p ∈ fc1, p.kind = PointKind.Forecast) ∧
      (∀ p ∈ fc2, p.kind = PointKind.Forecast) := by
  have hlast := lastYear_eq_getLast ts hne hsort
  have hsortyears : ((ts.map fun p =>
      (⟨p.1, p.2, PointKind.Historical⟩ : ForecastPoint)).map
        (·.year)).Pairwise (fun a b => a ≤ b) := by
    rw [List.map_map]
    exact List.pairwise_map.mpr hsort
  have hyears : ∀ (vals : Nat → ℚ),
      (((List.range h).map fun i : Nat =>
        (⟨lastYear ts + 1 + (i : Int), vals i, PointKind.Forecast⟩ :
          ForecastPoint)).map (·.year)) =
      (List.range h).map (fun i : Nat => (ts.getLastD (0, 0)).1 + 1 + (i : Int)) := by
    intro vals
    rw [List.map_map]
    apply List.map_congr_left
    intro i _
    show lastYear ts + 1 + (i : Int) = _
    rw [hlast]
  cases hfit : fit ts h with
  | error e =>
    have hes : exponential_smoothing_forecast fit ts h =
        linear_regression_forecast ts h := by
      unfold exponential_smoothing_forecast esTryBody
      rw [hfit]
      rfl
    refine ⟨(List.range h).map fun i : Nat =>
        ⟨lastYear ts + 1 + (i : Int),
          (olsFit ts).1 * ((lastYear ts + 1 + (i : Int) : Int) : ℚ) +
            (olsFit ts).2, PointKind.Forecast⟩,
      (List.range h).map fun i : Nat =>
        ⟨lastYear ts + 1 + (i : Int),
          (olsFit ts).1 * ((lastYear ts + 1 + (i : Int) : Int) : ℚ) +
            (olsFit ts).2, PointKind.Forecast⟩,
      ?_, ?_, hsortyears, by simp, by simp,
      hyears _, hyears _, ?_, ?_⟩
    · rfl
    · rw [hes]
      rfl
    · intro p hp
      obtain ⟨i, _, hip⟩ := List.mem_map.mp hp
      rw [← hip]
    · intro p hp
      obtain ⟨i, _, hip⟩ := List.mem_map.mp hp
      rw [← hip]
  | ok f =>
    have hes : exponential_smoothing_forecast fit ts h =
        ts.map (fun p => ⟨p.1, p.2, PointKind.Historical⟩) ++
          (List.range h).map fun i : Nat =>
            ⟨lastYear ts + 1 + (i : Int), f i, PointKind.Forecast⟩ := by
      unfold exponential_smoothing_forecast esTryBody
      rw [hfit]
      rfl
    refine ⟨(List.range h).map fun i : Nat =>
        ⟨lastYear ts + 1 + (i : Int),
          (olsFit ts).1 * ((lastYear ts + 1 + (i : Int) : Int) : ℚ) +
            (olsFit ts).2, PointKind.Forecast⟩,
      (List.range h).map fun i : Nat =>
        ⟨lastYear ts + 1 + (i : Int), f i, PointKind.Forecast⟩,
      ?_, hes, hsortyears, by simp, by simp,
      hyears _, hyears _, ?_, ?_⟩
    · rfl
    · intro p hp
      obtain ⟨i, _, hip⟩ := List.mem_map.mp hp
      rw [← hip]
    · intro p hp
      obtain ⟨i, _, hip⟩ := List.mem_map.mp hp
      rw [← hip]

/-- C5.  Whenever the fitting step (the `try` body) of
`exponential_smoothing_forecast` fails — for any reason and any fitter — the
function returns exactly `linear_regression_forecast` on the same series and
horizon; no error reaches the caller (the function is total). -/
theorem exponential_smoothing_fallback
    (fit : List (Int × ℚ) → Nat → Except String (Nat → ℚ))
    (ts : List (Int × ℚ)) (h : Nat) (e : String)
    (hfail : esTryBody fit ts h = Except.error e) :
    exponential_smoothing_forecast fit ts h =
      linear_regression_forecast ts h := by
  unfold exponential_smoothing_forecast
  rw [hfail]

/-- A small concrete year-sorted series. -/
def exSeries : List (Int × ℚ) := [(2000, 1), (2001, 2)]

/-- Witness for C4 at the concrete series [(2000, 1), (2001, 2)], horizon 5
and an always-failing fitter. -/
theorem forecast_output_contract_witness :
    ∃ fc1 fc2 : List ForecastPoint,
      linear_regression_forecast exSeries 5 =
        exSeries.map (fun p => ⟨p.1, p.2, PointKind.Historical⟩) ++ fc1 ∧
      exponential_smoothing_forecast (fun _ _ => Except.error "fit failed")
          exSeries 5 =
        exSeries.map (fun p => ⟨p.1, p.2, PointKind.Historical⟩) ++ fc2 ∧
      ((exSeries.map fun p =>
        (⟨p.1, p.2, PointKind.Historical⟩ : ForecastPoint)).map
          (·.year)).Pairwise (fun a b => a ≤ b) ∧
      fc1.length = 5 ∧ fc2.length = 5 ∧
      fc1.map (·.year) = (List.range 5).map
        (fun i : Nat => (exSeries.getLastD (0, 0)).1 + 1 + (i : Int)) ∧
      fc2.map (·.year) = (List.range 5).map
        (fun i : Nat => (exSeries.getLastD (0, 0)).1 + 1 + (i : Int)) ∧
      (∀ p ∈ fc1, p.kind = PointKind.Forecast) ∧
      (∀ p ∈ fc2, p.kind = PointKind.Forecast) :=
  forecast_output_contract exSeries 5 (fun _ _ => Except.error "fit failed")
    (by decide) (by decide) (by decide)

/-- Witness for C5: with a fitter that always raises, the exponential
smoothing forecast of the concrete series equals the linear regression
forecast. -/
theorem exponential_smoothing_fallback_witness :
    exponential_smoothing_forecast (fun _ _ => Except.error "convergence")
        exSeries 5 =
      linear_regression_forecast exSeries 5 :=
  exponential_smoothing_fallback (fun _ _ => Except.error "convergence")
    exSeries 5 "convergence" rfl

theorem length_filterMap_eq_countP {α β : Type} (f : α → Option β) :
    ∀ l : List α, (l.filterMap f).length = l.countP fun a => (f a).isSome := by
  intro l
  induction l with
  | nil => rfl
  | cons x t ih =>
    rw [List.filterMap_cons, List.countP_cons]
    cases hfx : f x with
    | none => rw [ih]; simp [hfx]
    | some b => rw [List.length_cons, ih]; simp [hfx]

/-- C7.  `prepare_forecast_data` returns the distinct insufficient-data
signal (`None`) exactly when the country has no rows at all or fewer than
`min_data_points` non-null (year, value) pairs remain for the indicator;
otherwise it returns exactly those pairs, sorted ascending by year. -/
theorem prepare_forecast_data_spec (rows : List Row) (country : String)
    (indicator : Row → Option ℚ) (min_points : Nat) :
    (prepare_forecast_data rows country indicator min_points = none ↔
      (∀ r ∈ rows, r.country ≠ country) ∨
      (rows.filter fun r => r.country == country).countP
        (fun r => (indicator r).isSome) < min_points) ∧
    ∀ l, prepare_forecast_data rows country indicator min_points = some l →
      l.Perm ((rows.filter fun r => r.country == country).filterMap fun r =>
        (indicator r).map fun v => (r.year, v)) ∧
      l.Pairwise yearLE := by
  have hcount : ((rows.filter fun r => r.country == country).filterMap fun r =>
      (indicator r).map fun v => (r.year, v)).length =
      (rows.filter fun r => r.country == country).countP
        fun r => (indicator r).isSome := by
    rw [length_filterMap_eq_countP]
    apply List.countP_congr
    intro r _
    simp
  simp only [prepare_forecast_data]
  by_cases hempty : (rows.filter fun r => r.country == country).isEmpty
  · rw [if_pos hempty]
    have hnil : (rows.filter fun r => r.country == country) = [] :=
      List.isEmpty_iff.mp hempty
    rw [List.filter_eq_nil_iff] at hnil
    constructor
    · constructor
      · intro _
        exact Or.inl fun r hr hc => hnil r hr (by simp [hc])
      · intro _
        rfl
    · intro l hl
      exact absurd hl (by simp)
  · rw [if_neg hempty]
    by_cases hlen : ((rows.filter fun r => r.country == country).filterMap
        fun r => (indicator r).map fun v => (r.year, v)).length < min_points
    · rw [if_pos hlen]
      constructor
      · constructor
        · intro _
          right
          rw [← hcount]
          exact hlen
        · intro _
          rfl
      · intro l hl
        exact absurd hl (by simp)
    · rw [if_neg hlen]
      constructor
      · constructor
        · intro h
          exact absurd h (by simp)
        · intro h
          exfalso
          rcases h with h | h
          · rw [List.isEmpty_iff] at hempty
            apply hempty
            rw [List.filter_eq_nil_iff]
            intro r hr hc
            exact h r hr (by simpa using hc)
          · rw [← hcount] at h
            exact hlen h
      · intro l hl
        have hl' : List.insertionSort yearLE
            ((rows.filter fun r => r.country == country).filterMap fun r =>
              (indicator r).map fun v => (r.year, v)) = l :=
          Option.some.injEq _ _ ▸ hl
        rw [← hl']
        exact ⟨List.perm_insertionSort yearLE _,
          List.sorted_insertionSort yearLE _⟩

/-- A table in which country A has four GDP rows but only three non-null
GDP values. -/
def c7Table : List Row :=
  [⟨"A", some "AAA", 2000, none, some 1, none, none⟩,
   ⟨"A", some "AAA", 2001, none, none, none, none⟩,
   ⟨"A", some "AAA", 2002, none, some 2, none, none⟩,
   ⟨"A", some "AAA", 2003, none, some 3, none, none⟩]

/-- Witness for C7: with 3 non-null GDP points and `min_data_points = 5`,
`prepare_forecast_data` returns the insufficient-data signal. -/
theorem prepare_forecast_data_spec_witness :
    prepare_forecast_data c7Table "A" (·.gdp_pc_usd) 5 = none :=
  (prepare_forecast_data_spec c7Table "A" (·.gdp_pc_usd) 5).1.mpr
    (Or.inr (by decide))

end WorldBank
